import Mathlib

/-!
Shallow embedding of `src/src/main.rs` of the `vector_database` repository.

Modelling conventions:
- `f32` vector components are modelled as rationals (ℚ); `u64` ids and
  `usize` parameters as `Nat` (the code performs no arithmetic on them, only
  the lossless 64-bit casts `*id as usize` and `n.d_id as u64`).
- `serde_json::Value` payloads are never inspected by the code and are
  modelled by a small inductive type `Json`.
- The `HashMap<String, Collection>` registry behind the mutex is modelled as
  a function `String → Option Collection`; `HashMap::insert` is pointwise
  function update.
- A Rust panic (the unchecked `vectors[i]` / `payloads[i]` indexing in
  `Collection::upsert`) is modelled by returning `none`.
- The index objects come from the external `hnsw_rs` crate, whose source is
  not part of this repository; `main.rs` uses only `Hnsw::new`,
  `Hnsw::insert` (which returns unit, hence is infallible at the API
  surface) and `Hnsw::search`. They are modelled from the spec, see the
  doc comments on `Hnsw`, `Hnsw.insert`, `distL2`, `distCosine` and
  `Hnsw.search`.
-/

/-- Opaque JSON-like payload values (`serde_json::Value`); the core stores
and returns them verbatim and never inspects their structure, so a small
inductive stand-in suffices. -/
inductive Json where
| null : Json
| bool (b : Bool) : Json
| num (q : ℚ) : Json
| str (s : String) : Json
deriving DecidableEq

/-- Embedding of `HnswParams` (main.rs lines 17-22). -/
structure HnswParams where
  max_nb_connection : Nat
  ef_search : Nat
  max_elements : Nat
deriving DecidableEq

/-- Embedding of `CollectionConfig` (main.rs lines 11-15): the distance is a
free-form string, expected to be "l2" or "cosine". -/
structure CollectionConfig where
  distance : String
  hnsw : HnswParams
deriving DecidableEq

/-- Embedding of `VectorRecord` (main.rs lines 24-29). -/
structure VectorRecord where
  id : Nat
  vector : List ℚ
  payload : Json
deriving DecidableEq

/-- Modelled from the spec: the proximity-graph index of §4.2 is delegated to
the external `hnsw_rs` crate, whose source is not in this repository. The
object is modelled as its construction parameters together with the log of
inserted (vector, data-id) pairs; the graph edges themselves are irrelevant
to every claim and are not modelled. -/
structure Hnsw where
  max_nb_connection : Nat
  ef_construction : Nat
  dim : Nat
  max_elements : Nat
  nodes : List (List ℚ × Nat)
deriving DecidableEq

/-- Modelled from the spec: `Hnsw::new(max_nb_connection, ef_construction,
dim, max_elements, dist)` builds an empty index holding its parameters. -/
def Hnsw.new (max_nb_connection ef_construction dim max_elements : Nat) : Hnsw :=
  { max_nb_connection := max_nb_connection
    ef_construction := ef_construction
    dim := dim
    max_elements := max_elements
    nodes := [] }

/-- Modelled from the spec: `Hnsw::insert((vector, data_id))` returns unit in
the crate API, hence never reports failure to the caller; it is modelled as
appending the pair to the node log. -/
def Hnsw.insert (h : Hnsw) (v : List ℚ) (id : Nat) : Hnsw :=
  { h with nodes := h.nodes ++ [(v, id)] }

/-- Modelled from the spec: squared L2 distance, the sum of squared
componentwise differences (§4.1), over the componentwise zip. -/
def distL2 (a b : List ℚ) : ℚ :=
  ((a.zip b).map (fun p => (p.1 - p.2) * (p.1 - p.2))).sum

/-- Dot product over the componentwise zip. -/
def dotProd (a b : List ℚ) : ℚ :=
  ((a.zip b).map (fun p => p.1 * p.2)).sum

/-- Modelled from the spec: cosine distance 1 - a·b/(‖a‖·‖b‖) (§4.1). Square
roots are unavailable over ℚ, so the embedding uses the ranking-equivalent
surrogate 1 - sgn(a·b)·(a·b)²/(‖a‖²·‖b‖²), which induces exactly the same
ordering of candidates, and the maximum-distance sentinel 2 on a
zero-magnitude operand. No claim depends on the numeric value of a cosine
distance, only on orderings, counts and ids. -/
def distCosine (a b : List ℚ) : ℚ :=
  if dotProd a a = 0 ∨ dotProd b b = 0 then 2
  else 1 - (if 0 ≤ dotProd a b then 1 else -1) * (dotProd a b) * (dotProd a b)
    / (dotProd a a * dotProd b b)

/-- Comparator for search results (id, distance): ascending distance, ties
broken by smaller id (§4.2 step 3 of the spec). -/
def neighbourLE (a b : Nat × ℚ) : Bool :=
  decide (a.2 < b.2 ∨ (a.2 = b.2 ∧ a.1 ≤ b.1))

/-- Modelled from the spec: `Hnsw::search(query, knbn, ef)` returns the knbn
closest stored vectors as (data-id, distance) pairs, sorted ascending by
distance with ties broken by smaller id, and the empty sequence on an empty
graph (§4.2). The spec guarantees only approximate recall in general but
states the round-trip property as exact; the model performs exact scoring
over the node log, and the beam width `ef` does not affect it. -/
def Hnsw.search (h : Hnsw) (d : List ℚ → List ℚ → ℚ) (query : List ℚ)
    (knbn : Nat) (_ef : Nat) : List (Nat × ℚ) :=
  ((h.nodes.map (fun nd => (nd.2, d query nd.1))).mergeSort neighbourLE).take knbn

/-- Embedding of `Collection` (main.rs lines 31-36). -/
structure Collection where
  config : CollectionConfig
  records : List VectorRecord
  hnsw_l2 : Option Hnsw
  hnsw_cosine : Option Hnsw
deriving DecidableEq

/-- Embedding of `Collection::new` (main.rs lines 39-70): the l2 index is
built iff `distance == "l2"`, the cosine index iff `distance == "cosine"`,
each with efConstruction 16, the given dimension and `max_elements`; the
record store starts empty. Any other distance string yields a collection
with no index at all. -/
def Collection.new (config : CollectionConfig) (dim : Nat) : Collection :=
  { config := config
    records := []
    hnsw_l2 :=
      if config.distance = "l2" then
        some (Hnsw.new config.hnsw.max_nb_connection 16 dim config.hnsw.max_elements)
      else none
    hnsw_cosine :=
      if config.distance = "cosine" then
        some (Hnsw.new config.hnsw.max_nb_connection 16 dim config.hnsw.max_elements)
      else none }

/-- Body of one iteration of the `for` loop of `Collection::upsert`
(main.rs lines 73-86): build the record, insert the vector into whichever
index is present, push the record. -/
def applyOne (c : Collection) (id : Nat) (v : List ℚ) (p : Json) : Collection :=
  { c with
    hnsw_l2 := c.hnsw_l2.map (fun h => h.insert v id)
    hnsw_cosine := c.hnsw_cosine.map (fun h => h.insert v id)
    records := c.records ++ [⟨id, v, p⟩] }

/-- Embedding of the loop of `Collection::upsert` (main.rs lines 72-87),
indexing `vectors[i]` and `payloads[i]` exactly as the Rust code does: an
out-of-bounds index is a panic, modelled by `none`. -/
def upsertLoop (c : Collection) (i : Nat) (ids : List Nat)
    (vectors : List (List ℚ)) (payloads : List Json) : Option Collection :=
  match ids with
  | [] => some c
  | id :: rest =>
    match vectors[i]?, payloads[i]? with
    | some v, some p => upsertLoop (applyOne c id v p) (i + 1) rest vectors payloads
    | _, _ => none

/-- Embedding of `Collection::upsert` (main.rs lines 72-87): iterate over
`ids` with its enumeration index. There is no arity, dimension or capacity
validation anywhere in the function. -/
def Collection.upsert (c : Collection) (ids : List Nat)
    (vectors : List (List ℚ)) (payloads : List Json) : Option Collection :=
  upsertLoop c 0 ids vectors payloads

/-- Embedding of `Collection::search` (main.rs lines 89-99): dispatch on the
l2 index first, then the cosine index, else return the empty list; the beam
width passed to the library is the configured `ef_search`. -/
def Collection.search (c : Collection) (query : List ℚ) (top_k : Nat) :
    List (Nat × ℚ) :=
  match c.hnsw_l2 with
  | some h => h.search distL2 query top_k c.config.hnsw.ef_search
  | none =>
    match c.hnsw_cosine with
    | some h => h.search distCosine query top_k c.config.hnsw.ef_search
    | none => []

/-- Registry state held behind the mutex of `AppState` (main.rs lines
102-104): a map from collection name to collection. -/
abbrev Registry := String → Option Collection

/-- HTTP statuses the handlers of main.rs actually produce. -/
inductive HttpStatus where
| ok : HttpStatus
| notFound : HttpStatus
deriving DecidableEq

/-- Embedding of `create_collection` (main.rs lines 113-123): an
unconditional `HashMap::insert` of a fresh collection, then
`HttpResponse::Ok`. There is no name-collision or config validation. -/
def create_collection (st : Registry) (name : String)
    (config : CollectionConfig) (dim : Nat) : HttpStatus × Registry :=
  (HttpStatus.ok, fun n => if n = name then some (Collection.new config dim) else st n)

/-- Embedding of `upsert_vectors` (main.rs lines 132-144): look the name up,
upsert on hit (a `none` models a panic propagating out of
`Collection::upsert`), `NotFound` on miss. -/
def upsert_vectors (st : Registry) (name : String) (ids : List Nat)
    (vectors : List (List ℚ)) (payloads : List Json) :
    Option (HttpStatus × Registry) :=
  match st name with
  | some coll =>
    (coll.upsert ids vectors payloads).map
      (fun c => (HttpStatus.ok, fun n => if n = name then some c else st n))
  | none => some (HttpStatus.notFound, st)

/-- Embedding of `search_vectors` (main.rs lines 152-164): read-only; the
results paired with `ok` on hit, `notFound` (and no body) on miss; the
registry is returned to express that the handler never mutates it. -/
def search_vectors (st : Registry) (name : String) (query : List ℚ)
    (top_k : Nat) : (HttpStatus × Option (List (Nat × ℚ))) × Registry :=
  match st name with
  | some coll => ((HttpStatus.ok, some (coll.search query top_k)), st)
  | none => ((HttpStatus.notFound, none), st)

/-- Records produced by one upsert batch: ids, vectors and payloads zipped
into `VectorRecord`s, truncated at the shortest of the three lists. -/
def mkRecords : List Nat → List (List ℚ) → List Json → List VectorRecord
  | id :: ids, v :: vs, p :: ps => ⟨id, v, p⟩ :: mkRecords ids vs ps
  | _, _, _ => []

/-- Graph nodes produced by one upsert batch, in insertion order. -/
def mkNodes : List Nat → List (List ℚ) → List Json → List (List ℚ × Nat)
  | id :: ids, v :: vs, _ :: ps => (v, id) :: mkNodes ids vs ps
  | _, _, _ => []

/-- Folding the loop body over a batch; `upsertLoop` computes exactly this
whenever every index stays in bounds. -/
def applyBatch : Collection → List Nat → List (List ℚ) → List Json → Collection
  | c, id :: ids, v :: vs, p :: ps => applyBatch (applyOne c id v p) ids vs ps
  | c, _, _, _ => c

/-- Structural invariant of `Collection` tying the populated index field to
the distance string fixed at creation. -/
abbrev Collection.wfIndex (c : Collection) : Prop :=
  (c.config.distance = "l2" → c.hnsw_l2.isSome = true ∧ c.hnsw_cosine = none)
  ∧ (c.config.distance = "cosine" → c.hnsw_l2 = none ∧ c.hnsw_cosine.isSome = true)
  ∧ (c.config.distance ≠ "l2" → c.config.distance ≠ "cosine" →
      c.hnsw_l2 = none ∧ c.hnsw_cosine = none)

/-- Sample valid l2 config used by concrete instances. -/
def cfgL2 : CollectionConfig :=
  { distance := "l2"
    hnsw := { max_nb_connection := 16, ef_search := 10, max_elements := 100 } }

/-- Sample config with capacity 1, for the capacity-boundary instances. -/
def cfgTiny : CollectionConfig :=
  { distance := "l2"
    hnsw := { max_nb_connection := 16, ef_search := 10, max_elements := 1 } }

/-- Sample config with an unknown distance variant. -/
def cfgDot : CollectionConfig :=
  { distance := "dot"
    hnsw := { max_nb_connection := 16, ef_search := 10, max_elements := 100 } }

/-- Sample registry holding one collection named "a" with one stored record. -/
def regA : Registry :=
  fun n =>
    if n = "a" then
      some { config := cfgL2
             records := [⟨7, [1, 2], Json.null⟩]
             hnsw_l2 := none
             hnsw_cosine := none }
    else none

/-- Sample collection holding one record with id 7, obtained by one loop
iteration on a fresh l2 collection of dimension 2. -/
def collA : Collection := applyOne (Collection.new cfgL2 2) 7 [0, 0] Json.null

/-- Result of re-upserting id 7 into `collA`. -/
def collA2 : Collection := applyBatch collA [7] [[1, 1]] [Json.null]

/-! Basic equations for the batch helpers. -/

theorem mkRecords_nil (vs : List (List ℚ)) (ps : List Json) :
    mkRecords [] vs ps = [] := rfl

theorem mkRecords_cons (id : Nat) (ids : List Nat) (v : List ℚ)
    (vs : List (List ℚ)) (p : Json) (ps : List Json) :
    mkRecords (id :: ids) (v :: vs) (p :: ps) = ⟨id, v, p⟩ :: mkRecords ids vs ps := rfl

theorem mkNodes_nil (vs : List (List ℚ)) (ps : List Json) :
    mkNodes [] vs ps = [] := rfl

theorem mkNodes_cons (id : Nat) (ids : List Nat) (v : List ℚ)
    (vs : List (List ℚ)) (p : Json) (ps : List Json) :
    mkNodes (id :: ids) (v :: vs) (p :: ps) = (v, id) :: mkNodes ids vs ps := rfl

theorem applyBatch_nil (c : Collection) (vs : List (List ℚ)) (ps : List Json) :
    applyBatch c [] vs ps = c := rfl

theorem applyBatch_cons (c : Collection) (id : Nat) (ids : List Nat) (v : List ℚ)
    (vs : List (List ℚ)) (p : Json) (ps : List Json) :
    applyBatch c (id :: ids) (v :: vs) (p :: ps) = applyBatch (applyOne c id v p) ids vs ps := rfl

/-! Field-wise description of `applyBatch`. -/

theorem applyBatch_config : ∀ (ids : List Nat) (vs : List (List ℚ)) (ps : List Json)
    (c : Collection), (applyBatch c ids vs ps).config = c.config := by
  intro ids
  induction ids with
  | nil => intro vs ps c; rfl
  | cons id rest ih =>
    intro vs ps c
    cases vs with
    | nil => rfl
    | cons v vs =>
      cases ps with
      | nil => rfl
      | cons p ps => rw [applyBatch_cons, ih]; rfl

theorem applyBatch_records : ∀ (ids : List Nat) (vs : List (List ℚ)) (ps : List Json)
    (c : Collection), (applyBatch c ids vs ps).records = c.records ++ mkRecords ids vs ps := by
  intro ids
  induction ids with
  | nil => intro vs ps c; simp [applyBatch_nil, mkRecords_nil]
  | cons id rest ih =>
    intro vs ps c
    cases vs with
    | nil => simp [applyBatch, mkNodes]; rfl
    | cons v vs =>
      cases ps with
      | nil => simp [applyBatch, mkNodes]; rfl
      | cons p ps =>
        rw [applyBatch_cons, ih, mkRecords_cons]
        simp [applyOne]

theorem applyBatch_hnsw_l2 : ∀ (ids : List Nat) (vs : List (List ℚ)) (ps : List Json)
    (c : Collection), (applyBatch c ids vs ps).hnsw_l2
      = c.hnsw_l2.map (fun h => { h with nodes := h.nodes ++ mkNodes ids vs ps }) := by
  intro ids
  induction ids with
  | nil =>
    intro vs ps c
    rw [applyBatch_nil, mkNodes_nil]
    cases c.hnsw_l2 with
    | none => rfl
    | some h => simp
  | cons id rest ih =>
    intro vs ps c
    cases vs with
    | nil =>
      show c.hnsw_l2 = _
      cases c.hnsw_l2 with
      | none => rfl
      | some h => simp [mkNodes]
    | cons v vs =>
      cases ps with
      | nil =>
        show c.hnsw_l2 = _
        cases c.hnsw_l2 with
        | none => rfl
        | some h => simp [mkNodes]
      | cons p ps =>
        rw [applyBatch_cons, ih, mkNodes_cons]
        cases hc : c.hnsw_l2 with
        | none => simp [applyOne, hc]
        | some h => simp [applyOne, hc, Hnsw.insert, List.append_assoc]

theorem applyBatch_hnsw_cosine : ∀ (ids : List Nat) (vs : List (List ℚ)) (ps : List Json)
    (c : Collection), (applyBatch c ids vs ps).hnsw_cosine
      = c.hnsw_cosine.map (fun h => { h with nodes := h.nodes ++ mkNodes ids vs ps }) := by
  intro ids
  induction ids with
  | nil =>
    intro vs ps c
    rw [applyBatch_nil, mkNodes_nil]
    cases c.hnsw_cosine with
    | none => rfl
    | some h => simp
  | cons id rest ih =>
    intro vs ps c
    cases vs with
    | nil =>
      show c.hnsw_cosine = _
      cases c.hnsw_cosine with
      | none => rfl
      | some h => simp [mkNodes]
    | cons v vs =>
      cases ps with
      | nil =>
        show c.hnsw_cosine = _
        cases c.hnsw_cosine with
        | none => rfl
        | some h => simp [mkNodes]
      | cons p ps =>
        rw [applyBatch_cons, ih, mkNodes_cons]
        cases hc : c.hnsw_cosine with
        | none => simp [applyOne, hc]
        | some h => simp [applyOne, hc, Hnsw.insert, List.append_assoc]

/-! The batch helpers on in-bounds inputs. -/

theorem mkRecords_map_id : ∀ (ids : List Nat) (vs : List (List ℚ)) (ps : List Json),
    ids.length ≤ vs.length → ids.length ≤ ps.length →
    (mkRecords ids vs ps).map VectorRecord.id = ids := by
  intro ids
  induction ids with
  | nil => intro vs ps _ _; rfl
  | cons id rest ih =>
    intro vs ps h1 h2
    cases vs with
    | nil => simp at h1
    | cons v vs =>
      cases ps with
      | nil => simp at h2
      | cons p ps =>
        rw [mkRecords_cons]
        simp only [List.map_cons]
        rw [ih vs ps (by simpa using h1) (by simpa using h2)]

theorem mkRecords_length (ids : List Nat) (vs : List (List ℚ)) (ps : List Json)
    (h1 : ids.length ≤ vs.length) (h2 : ids.length ≤ ps.length) :
    (mkRecords ids vs ps).length = ids.length := by
  have := congrArg List.length (mkRecords_map_id ids vs ps h1 h2)
  simpa using this

theorem mkNodes_map_snd : ∀ (ids : List Nat) (vs : List (List ℚ)) (ps : List Json),
    ids.length ≤ vs.length → ids.length ≤ ps.length →
    (mkNodes ids vs ps).map Prod.snd = ids := by
  intro ids
  induction ids with
  | nil => intro vs ps _ _; rfl
  | cons id rest ih =>
    intro vs ps h1 h2
    cases vs with
    | nil => simp at h1
    | cons v vs =>
      cases ps with
      | nil => simp at h2
      | cons p ps =>
        rw [mkNodes_cons]
        simp only [List.map_cons]
        rw [ih vs ps (by simpa using h1) (by simpa using h2)]

theorem mkNodes_length (ids : List Nat) (vs : List (List ℚ)) (ps : List Json)
    (h1 : ids.length ≤ vs.length) (h2 : ids.length ≤ ps.length) :
    (mkNodes ids vs ps).length = ids.length := by
  have := congrArg List.length (mkNodes_map_snd ids vs ps h1 h2)
  simpa using this

theorem applyBatch_truncates : ∀ (ids : List Nat) (vs : List (List ℚ)) (ps : List Json)
    (c : Collection),
    applyBatch c ids vs ps = applyBatch c ids (vs.take ids.length) (ps.take ids.length) := by
  intro ids
  induction ids with
  | nil => intro vs ps c; rfl
  | cons id rest ih =>
    intro vs ps c
    cases vs with
    | nil => rfl
    | cons v vs =>
      cases ps with
      | nil => rfl
      | cons p ps =>
        simp only [List.length_cons, List.take_succ_cons]
        rw [applyBatch_cons, applyBatch_cons, ih]

/-! Characterization of the upsert loop. -/

theorem upsertLoop_eq_applyBatch (vs : List (List ℚ)) (ps : List Json) :
    ∀ (ids : List Nat) (i : Nat) (c : Collection),
    i + ids.length ≤ vs.length → i + ids.length ≤ ps.length →
    upsertLoop c i ids vs ps = some (applyBatch c ids (vs.drop i) (ps.drop i)) := by
  intro ids
  induction ids with
  | nil => intro i c _ _; simp [upsertLoop, applyBatch_nil]
  | cons id rest ih =>
    intro i c h1 h2
    have hiv : i < vs.length := by simp at h1; omega
    have hip : i < ps.length := by simp at h2; omega
    rw [upsertLoop, List.getElem?_eq_getElem hiv, List.getElem?_eq_getElem hip]
    rw [List.drop_eq_getElem_cons hiv, List.drop_eq_getElem_cons hip, applyBatch_cons]
    exact ih (i + 1) (applyOne c id vs[i] ps[i]) (by simp at h1 ⊢; omega)
      (by simp at h2 ⊢; omega)

theorem upsertLoop_oob_none (vs : List (List ℚ)) (ps : List Json) :
    ∀ (ids : List Nat) (i : Nat) (c : Collection), ids ≠ [] →
    (vs.length < i + ids.length ∨ ps.length < i + ids.length) →
    upsertLoop c i ids vs ps = none := by
  intro ids
  induction ids with
  | nil => intro i c hne _; exact absurd rfl hne
  | cons id rest ih =>
    intro i c _ hover
    cases hvs : vs[i]? with
    | none =>
      cases hps : ps[i]? <;> simp [upsertLoop, hvs, hps]
    | some v =>
      cases hps : ps[i]? with
      | none => simp [upsertLoop, hvs, hps]
      | some p =>
        have hiv : i < vs.length := by
          by_contra hcon
          rw [List.getElem?_eq_none (by omega)] at hvs
          exact Option.noConfusion hvs
        have hip : i < ps.length := by
          by_contra hcon
          rw [List.getElem?_eq_none (by omega)] at hps
          exact Option.noConfusion hps
        have hrest : rest ≠ [] := by
          rintro rfl
          simp at hover
          omega
        rw [upsertLoop, hvs, hps]
        exact ih (i + 1) (applyOne c id v p) hrest (by simp at hover ⊢; omega)

theorem upsert_some_bounds (c : Collection) (ids : List Nat) (vs : List (List ℚ))
    (ps : List Json) (c' : Collection) (hup : c.upsert ids vs ps = some c')
    (hne : ids ≠ []) : ids.length ≤ vs.length ∧ ids.length ≤ ps.length := by
  constructor
  · by_contra hcon
    rw [Collection.upsert, upsertLoop_oob_none vs ps ids 0 c hne (by omega)] at hup
    exact Option.noConfusion hup
  · by_contra hcon
    rw [Collection.upsert, upsertLoop_oob_none vs ps ids 0 c hne (by omega)] at hup
    exact Option.noConfusion hup

theorem upsert_of_bounds (c : Collection) (ids : List Nat) (vs : List (List ℚ))
    (ps : List Json) (h1 : ids.length ≤ vs.length) (h2 : ids.length ≤ ps.length) :
    c.upsert ids vs ps = some (applyBatch c ids vs ps) := by
  rw [Collection.upsert, upsertLoop_eq_applyBatch vs ps ids 0 c (by omega) (by omega)]
  simp

theorem upsert_eq_applyBatch (c : Collection) (ids : List Nat) (vs : List (List ℚ))
    (ps : List Json) (c' : Collection) (hup : c.upsert ids vs ps = some c') :
    c' = applyBatch c ids vs ps := by
  cases hne : ids with
  | nil =>
    subst hne
    rw [Collection.upsert, upsertLoop] at hup
    rw [applyBatch_nil]
    exact (Option.some.injEq _ _ ▸ hup).symm
  | cons id rest =>
    subst hne
    obtain ⟨h1, h2⟩ := upsert_some_bounds c _ vs ps c' hup (by simp)
    rw [upsert_of_bounds c _ vs ps h1 h2] at hup
    exact (Option.some.injEq _ _ ▸ hup).symm

/-! The result comparator is a total preorder, and search facts. -/

theorem neighbourLE_trans (a b c : Nat × ℚ) (hab : neighbourLE a b = true)
    (hbc : neighbourLE b c = true) : neighbourLE a c = true := by
  simp only [neighbourLE, decide_eq_true_eq] at hab hbc ⊢
  rcases hab with h | ⟨he, hi⟩
  · rcases hbc with h2 | ⟨he2, _⟩
    · exact Or.inl (lt_trans h h2)
    · exact Or.inl (he2 ▸ h)
  · rcases hbc with h2 | ⟨he2, hi2⟩
    · exact Or.inl (he ▸ h2)
    · exact Or.inr ⟨he.trans he2, le_trans hi hi2⟩

theorem neighbourLE_total (a b : Nat × ℚ) :
    (neighbourLE a b || neighbourLE b a) = true := by
  simp only [neighbourLE, Bool.or_eq_true, decide_eq_true_eq]
  rcases lt_trichotomy a.2 b.2 with h | h | h
  · exact Or.inl (Or.inl h)
  · rcases Nat.le_total a.1 b.1 with hi | hi
    · exact Or.inl (Or.inr ⟨h, hi⟩)
    · exact Or.inr (Or.inr ⟨h.symm, hi⟩)
  · exact Or.inr (Or.inl h)

theorem neighbourLE_dist_le (a b : Nat × ℚ) (h : neighbourLE a b = true) :
    a.2 ≤ b.2 := by
  simp only [neighbourLE, decide_eq_true_eq] at h
  rcases h with h | ⟨h, _⟩
  · exact le_of_lt h
  · exact le_of_eq h

theorem hnswSearch_props (h : Hnsw) (d : List ℚ → List ℚ → ℚ) (query : List ℚ)
    (ef n : Nat) (hlen : h.nodes.length = n)
    (hnd : (h.nodes.map Prod.snd).Nodup) :
    (h.search d query n ef).length = n
    ∧ ((h.search d query n ef).map Prod.fst).Nodup
    ∧ (h.search d query n ef).Pairwise (fun a b => a.2 ≤ b.2) := by
  have hl : (h.nodes.map (fun nd => (nd.2, d query nd.1))).length = n := by
    simpa using hlen
  have hperm := List.mergeSort_perm (h.nodes.map (fun nd => (nd.2, d query nd.1))) neighbourLE
  have hslen : ((h.nodes.map (fun nd => (nd.2, d query nd.1))).mergeSort neighbourLE).length = n := by
    rw [List.length_mergeSort]
    exact hl
  have htake : h.search d query n ef
      = (h.nodes.map (fun nd => (nd.2, d query nd.1))).mergeSort neighbourLE := by
    rw [Hnsw.search]
    exact List.take_of_length_le (le_of_eq hslen)
  refine ⟨?_, ?_, ?_⟩
  · rw [htake]; exact hslen
  · rw [htake]
    have hmap := hperm.map Prod.fst
    rw [(hmap.nodup_iff)]
    have : (h.nodes.map (fun nd => (nd.2, d query nd.1))).map Prod.fst
        = h.nodes.map Prod.snd := by
      simp [List.map_map]
    rw [this]
    exact hnd
  · rw [htake]
    exact (List.sorted_mergeSort neighbourLE_trans neighbourLE_total
      (h.nodes.map (fun nd => (nd.2, d query nd.1)))).imp
      (fun hab => neighbourLE_dist_le _ _ hab)

theorem search_dispatch_l2 (c : Collection) (h : Hnsw) (hl2 : c.hnsw_l2 = some h)
    (query : List ℚ) (top_k : Nat) :
    c.search query top_k = h.search distL2 query top_k c.config.hnsw.ef_search := by
  rw [Collection.search, hl2]

theorem search_dispatch_cosine (c : Collection) (h : Hnsw) (hl2 : c.hnsw_l2 = none)
    (hcos : c.hnsw_cosine = some h) (query : List ℚ) (top_k : Nat) :
    c.search query top_k = h.search distCosine query top_k c.config.hnsw.ef_search := by
  rw [Collection.search, hl2, hcos]

theorem search_dispatch_none (c : Collection) (hl2 : c.hnsw_l2 = none)
    (hcos : c.hnsw_cosine = none) (query : List ℚ) (top_k : Nat) :
    c.search query top_k = [] := by
  rw [Collection.search, hl2, hcos]

/-! Invariant lemmas. -/

theorem wfIndex_new (cfg : CollectionConfig) (dim : Nat) :
    (Collection.new cfg dim).wfIndex := by
  unfold Collection.wfIndex Collection.new
  by_cases hl : cfg.distance = "l2"
  · simp [hl]
  · by_cases hc : cfg.distance = "cosine"
    · simp [hl, hc]
    · simp [hl, hc]

theorem wfIndex_applyBatch (ids : List Nat) (vectors : List (List ℚ))
    (payloads : List Json) (c : Collection) (hwf : c.wfIndex) :
    (applyBatch c ids vectors payloads).wfIndex := by
  obtain ⟨w1, w2, w3⟩ := hwf
  refine ⟨?_, ?_, ?_⟩
  · intro hd
    rw [applyBatch_config] at hd
    obtain ⟨ha, hb⟩ := w1 hd
    constructor
    · rw [applyBatch_hnsw_l2]
      cases hx : c.hnsw_l2 with
      | none => rw [hx] at ha; simp at ha
      | some h => simp
    · rw [applyBatch_hnsw_cosine, hb]; rfl
  · intro hd
    rw [applyBatch_config] at hd
    obtain ⟨ha, hb⟩ := w2 hd
    constructor
    · rw [applyBatch_hnsw_l2, ha]; rfl
    · rw [applyBatch_hnsw_cosine]
      cases hx : c.hnsw_cosine with
      | none => rw [hx] at hb; simp at hb
      | some h => simp
  · intro hd1 hd2
    rw [applyBatch_config] at hd1 hd2
    obtain ⟨ha, hb⟩ := w3 hd1 hd2
    rw [applyBatch_hnsw_l2, applyBatch_hnsw_cosine, ha, hb]
    exact ⟨rfl, rfl⟩

/-! Claim C1. -/

/-- C1 (amended): creating a collection under a name that is already present
does not fail with AlreadyExists; `create_collection` unconditionally
returns success and silently overwrites the entry with a fresh empty
collection built from the request config and dimension, leaving every other
name untouched. -/
theorem create_overwrites (st : Registry) (name : String) (cfg : CollectionConfig)
    (dim : Nat) (c₀ : Collection) (htaken : st name = some c₀) :
    (create_collection st name cfg dim).1 = HttpStatus.ok
    ∧ (create_collection st name cfg dim).2 name = some (Collection.new cfg dim)
    ∧ ∀ m, m ≠ name → (create_collection st name cfg dim).2 m = st m := by
  refine ⟨rfl, ?_, ?_⟩
  · simp [create_collection]
  · intro m hm
    simp [create_collection, hm]

/-- C1 counterexample: with "a" bound to a collection holding one record,
creating "a" again returns Ok (it does not fail with AlreadyExists) and the
entry for "a" is changed, so the existing collection is not left unchanged. -/
theorem create_overwrites_cex :
    (create_collection regA "a" cfgL2 2).1 = HttpStatus.ok
    ∧ (create_collection regA "a" cfgL2 2).2 "a" ≠ regA "a" := by
  constructor
  · rfl
  · decide

/-- C1 witness: the amended claim at the sample registry. -/
theorem create_overwrites_witness :
    (create_collection regA "a" cfgL2 3).1 = HttpStatus.ok
    ∧ (create_collection regA "a" cfgL2 3).2 "a" = some (Collection.new cfgL2 3)
    ∧ (create_collection regA "a" cfgL2 3).2 "b" = regA "b" := by
  obtain ⟨h1, h2, h3⟩ := create_overwrites regA "a" cfgL2 3
    { config := cfgL2, records := [⟨7, [1, 2], Json.null⟩],
      hnsw_l2 := none, hnsw_cosine := none } (by decide)
  exact ⟨h1, h2, h3 "b" (by decide)⟩

/-! Claim C5. -/

/-- C5 (amended): a create request whose config names a distance other than
"l2" or "cosine" does not fail with InvalidConfig; the handler performs no
config validation, returns Ok, and adds to the registry a collection with
the requested config, no records and no index at all (so its searches can
only return the empty list). -/
theorem create_accepts_unknown_distance (st : Registry) (name : String)
    (cfg : CollectionConfig) (dim : Nat)
    (h1 : cfg.distance ≠ "l2") (h2 : cfg.distance ≠ "cosine") :
    (create_collection st name cfg dim).1 = HttpStatus.ok
    ∧ (create_collection st name cfg dim).2 name
        = some { config := cfg, records := [], hnsw_l2 := none, hnsw_cosine := none } := by
  refine ⟨rfl, ?_⟩
  simp [create_collection, Collection.new, h1, h2]

/-- C5 counterexample: creating a collection with distance "dot" returns Ok
and a collection is added to the registry, refuting the claimed InvalidConfig
failure. -/
theorem create_accepts_unknown_distance_cex :
    (create_collection (fun _ => none) "a" cfgDot 2).1 = HttpStatus.ok
    ∧ (create_collection (fun _ => none) "a" cfgDot 2).2 "a"
        = some { config := cfgDot, records := [], hnsw_l2 := none, hnsw_cosine := none } := by
  constructor
  · rfl
  · decide

/-- C5 witness: the amended claim at a concrete unknown distance variant. -/
theorem create_accepts_unknown_distance_witness :
    (create_collection regA "b" cfgDot 3).1 = HttpStatus.ok
    ∧ (create_collection regA "b" cfgDot 3).2 "b"
        = some { config := cfgDot, records := [], hnsw_l2 := none, hnsw_cosine := none } :=
  create_accepts_unknown_distance regA "b" cfgDot 3 (by decide) (by decide)

/-! Claim C8. -/

/-- C8: both the upsert handler and the search handler addressed to a name
absent from the registry fail with NotFound and leave the registry unchanged. -/
theorem missing_collection_not_found (st : Registry) (name : String) (ids : List Nat)
    (vectors : List (List ℚ)) (payloads : List Json) (query : List ℚ) (top_k : Nat)
    (habs : st name = none) :
    upsert_vectors st name ids vectors payloads = some (HttpStatus.notFound, st)
    ∧ search_vectors st name query top_k = ((HttpStatus.notFound, none), st) := by
  constructor
  · simp [upsert_vectors, habs]
  · simp [search_vectors, habs]

/-- C8 witness: the claim at the empty registry. -/
theorem missing_collection_not_found_witness :
    upsert_vectors (fun _ => none) "a" [1] [[0]] [Json.null]
        = some (HttpStatus.notFound, fun _ => none)
    ∧ search_vectors (fun _ => none) "a" [0] 1
        = ((HttpStatus.notFound, none), fun _ => none) :=
  missing_collection_not_found (fun _ => none) "a" [1] [[0]] [Json.null] [0] 1 rfl

/-! Claim C2. -/

/-- C2 (amended): `Collection::upsert` performs no arity validation and never
fails with ArityMismatch. When ids is no longer than both vectors and
payloads the call succeeds, appending one record per id in order and
silently ignoring surplus entries; when ids is strictly longer than either
sequence, the call panics (out-of-bounds index, modelled by none) instead of
reporting an error, rather than validating the whole batch up front. -/
theorem upsert_no_arity_check (c : Collection) (ids : List Nat)
    (vectors : List (List ℚ)) (payloads : List Json) :
    (ids.length ≤ vectors.length → ids.length ≤ payloads.length →
      (c.upsert ids vectors payloads).map (fun c' => c'.records.map VectorRecord.id)
        = some (c.records.map VectorRecord.id ++ ids))
    ∧ (ids ≠ [] → (vectors.length < ids.length ∨ payloads.length < ids.length) →
      c.upsert ids vectors payloads = none) := by
  constructor
  · intro h1 h2
    rw [upsert_of_bounds c ids vectors payloads h1 h2]
    simp [applyBatch_records, List.map_append,
      mkRecords_map_id ids vectors payloads h1 h2]
  · intro hne hover
    exact upsertLoop_oob_none vectors payloads ids 0 c hne (by omega)

/-- C2 counterexample: an upsert whose three sequences have lengths 1, 2 and 2
does not fail with ArityMismatch: it succeeds and appends a record, so the
state is not what it was before the call either. -/
theorem upsert_no_arity_check_cex :
    ((Collection.new cfgL2 2).upsert [5] [[1, 2], [3, 4]] [Json.null, Json.null]).map
        (fun c => c.records.length) = some 1 := by decide

/-- C2 witness: both branches of the amended claim at concrete batches. -/
theorem upsert_no_arity_check_witness :
    ((Collection.new cfgL2 2).upsert [5] [[1, 2]] [Json.null]).map
        (fun c' => c'.records.map VectorRecord.id)
      = some ((Collection.new cfgL2 2).records.map VectorRecord.id ++ [5])
    ∧ (Collection.new cfgL2 2).upsert [5, 6] [[1, 2]] [Json.null] = none :=
  ⟨(upsert_no_arity_check (Collection.new cfgL2 2) [5] [[1, 2]] [Json.null]).1
      (by decide) (by decide),
   (upsert_no_arity_check (Collection.new cfgL2 2) [5, 6] [[1, 2]] [Json.null]).2
      (by decide) (by decide)⟩

/-! Claim C3. -/

/-- C3 (amended): `Collection::upsert` performs no dimension validation and
never fails with DimensionMismatch: a batch containing a vector whose length
differs from the dimension the index was built with is accepted whenever the
sequence lengths are in bounds, and the record count grows by the full batch
size instead of staying unchanged. -/
theorem upsert_no_dimension_check (c : Collection) (ids : List Nat)
    (vectors : List (List ℚ)) (payloads : List Json) (h : Hnsw) (v : List ℚ)
    (hl2 : c.hnsw_l2 = some h) (hv : v ∈ vectors.take ids.length)
    (hbad : v.length ≠ h.dim)
    (h1 : ids.length ≤ vectors.length) (h2 : ids.length ≤ payloads.length) :
    (c.upsert ids vectors payloads).map (fun c' => c'.records.length)
      = some (c.records.length + ids.length) := by
  rw [upsert_of_bounds c ids vectors payloads h1 h2]
  simp [applyBatch_records, mkRecords_length ids vectors payloads h1 h2]

/-- C3 counterexample: a fresh l2 collection whose index was built with
dimension 2 accepts an upsert of a length-3 vector; the call does not fail
with DimensionMismatch and the record count changes from 0 to 1. -/
theorem upsert_no_dimension_check_cex :
    ((Collection.new cfgL2 2).hnsw_l2).map Hnsw.dim = some 2
    ∧ ((Collection.new cfgL2 2).upsert [1] [[1, 2, 3]] [Json.null]).map
        (fun c => c.records.length) = some 1 := by decide

/-- C3 witness: the amended claim at a concrete wrong-length vector. -/
theorem upsert_no_dimension_check_witness :
    ((Collection.new cfgL2 2).upsert [1] [[1, 2, 3, 4]] [Json.null]).map
        (fun c' => c'.records.length)
      = some ((Collection.new cfgL2 2).records.length + 1) :=
  upsert_no_dimension_check (Collection.new cfgL2 2) [1] [[1, 2, 3, 4]] [Json.null]
    (Hnsw.new 16 16 2 100) [1, 2, 3, 4] (by decide) (by decide) (by decide)
    (by decide) (by decide)

/-! Claim C4. -/

/-- C4 (amended): there is no capacity enforcement and no CapacityExceeded
failure anywhere in the repository: the upsert handler returns Ok
unconditionally on an existing collection and the library insert call has no
failure path, so inserting max_elements + 1 vectors into a fresh l2
collection succeeds in full and leaves max_elements + 1 nodes in the graph,
not max_elements. -/
theorem upsert_no_capacity_check (cfg : CollectionConfig) (dim : Nat)
    (ids : List Nat) (vectors : List (List ℚ)) (payloads : List Json)
    (hl2 : cfg.distance = "l2") (hn : ids.length = cfg.hnsw.max_elements + 1)
    (h1 : ids.length ≤ vectors.length) (h2 : ids.length ≤ payloads.length) :
    ((Collection.new cfg dim).upsert ids vectors payloads).map
        (fun c => c.hnsw_l2.map (fun h => h.nodes.length))
      = some (some (cfg.hnsw.max_elements + 1)) := by
  rw [upsert_of_bounds _ ids vectors payloads h1 h2]
  have hL : (Collection.new cfg dim).hnsw_l2
      = some (Hnsw.new cfg.hnsw.max_nb_connection 16 dim cfg.hnsw.max_elements) := by
    simp [Collection.new, hl2]
  simp [applyBatch_hnsw_l2, hL, Hnsw.new,
    mkNodes_length ids vectors payloads h1 h2, hn]

/-- C4 counterexample: with max_elements = 1, inserting 2 vectors succeeds in
full (no CapacityExceeded) and the graph retains 2 nodes, not exactly
max_elements = 1 usable nodes. -/
theorem upsert_no_capacity_check_cex :
    cfgTiny.hnsw.max_elements = 1
    ∧ ((Collection.new cfgTiny 1).upsert [1, 2] [[0], [1]] [Json.null, Json.null]).map
        (fun c => (c.records.length, c.hnsw_l2.map (fun h => h.nodes.length)))
      = some (2, some 2) := by decide

/-- C4 witness: the amended claim at capacity 1 with a batch of 2. -/
theorem upsert_no_capacity_check_witness :
    ((Collection.new cfgTiny 1).upsert [1, 2] [[3], [4]] [Json.null, Json.null]).map
        (fun c => c.hnsw_l2.map (fun h => h.nodes.length))
      = some (some (cfgTiny.hnsw.max_elements + 1)) :=
  upsert_no_capacity_check cfgTiny 1 [1, 2] [[3], [4]] [Json.null, Json.null]
    rfl (by decide) (by decide) (by decide)

/-! Claim C6. -/

/-- C6: a successful upsert whose batch contains an id that is already
present in the record store appends rather than replaces: the record count
strictly increases, the id afterwards occurs at least twice among the stored
record ids, the previously stored records survive as a prefix, and whichever
index is populated gains one node per batch entry. -/
theorem upsert_duplicate_id_appends (c : Collection) (ids : List Nat)
    (vectors : List (List ℚ)) (payloads : List Json) (c' : Collection) (id : Nat)
    (hin : id ∈ ids) (hpresent : id ∈ c.records.map VectorRecord.id)
    (hup : c.upsert ids vectors payloads = some c') :
    c.records.length < c'.records.length
    ∧ 2 ≤ (c'.records.map VectorRecord.id).count id
    ∧ c'.records.take c.records.length = c.records
    ∧ c'.hnsw_l2.map (fun h => h.nodes.length)
        = c.hnsw_l2.map (fun h => h.nodes.length + ids.length)
    ∧ c'.hnsw_cosine.map (fun h => h.nodes.length)
        = c.hnsw_cosine.map (fun h => h.nodes.length + ids.length) := by
  have hne : ids ≠ [] := by rintro rfl; simp at hin
  obtain ⟨h1, h2⟩ := upsert_some_bounds c ids vectors payloads c' hup hne
  have hc' := upsert_eq_applyBatch c ids vectors payloads c' hup
  have hrec : c'.records = c.records ++ mkRecords ids vectors payloads := by
    rw [hc', applyBatch_records]
  have hlen : (mkRecords ids vectors payloads).length = ids.length :=
    mkRecords_length ids vectors payloads h1 h2
  have hpos : 0 < ids.length := List.length_pos.mpr hne
  refine ⟨?_, ?_, ?_, ?_, ?_⟩
  · rw [hrec]
    simp [hlen]
    omega
  · rw [hrec, List.map_append, List.count_append,
      mkRecords_map_id ids vectors payloads h1 h2]
    have hc1 : 0 < (c.records.map VectorRecord.id).count id :=
      List.count_pos_iff.mpr hpresent
    have hc2 : 0 < ids.count id := List.count_pos_iff.mpr hin
    omega
  · rw [hrec, List.take_left]
  · have hl2eq := applyBatch_hnsw_l2 ids vectors payloads c
    rw [← hc'] at hl2eq
    rw [hl2eq]
    cases c.hnsw_l2 with
    | none => rfl
    | some h => simp [mkNodes_length ids vectors payloads h1 h2]
  · have hcoseq := applyBatch_hnsw_cosine ids vectors payloads c
    rw [← hc'] at hcoseq
    rw [hcoseq]
    cases c.hnsw_cosine with
    | none => rfl
    | some h => simp [mkNodes_length ids vectors payloads h1 h2]

/-- C6 witness: re-upserting id 7 into a collection that already stores a
record with id 7. -/
theorem upsert_duplicate_id_appends_witness :
    collA.records.length < collA2.records.length
    ∧ 2 ≤ (collA2.records.map VectorRecord.id).count 7
    ∧ collA2.records.take collA.records.length = collA.records
    ∧ collA2.hnsw_l2.map (fun h => h.nodes.length)
        = collA.hnsw_l2.map (fun h => h.nodes.length + 1)
    ∧ collA2.hnsw_cosine.map (fun h => h.nodes.length)
        = collA.hnsw_cosine.map (fun h => h.nodes.length + 1) :=
  upsert_duplicate_id_appends collA [7] [[1, 1]] [Json.null] collA2 7
    (by decide) (by decide) (by decide)

/-! Claim C10. -/

/-- C10: when vectors and payloads are each at least as long as ids, the
upsert succeeds, appends exactly one record per id in the order of ids, and
the surplus entries of vectors and payloads are silently ignored: the result
coincides with upserting the sequences truncated at the length of ids. -/
theorem upsert_ignores_surplus (c : Collection) (ids : List Nat)
    (vectors : List (List ℚ)) (payloads : List Json)
    (h1 : ids.length ≤ vectors.length) (h2 : ids.length ≤ payloads.length) :
    (c.upsert ids vectors payloads).isSome = true
    ∧ (c.upsert ids vectors payloads).map (fun c' => c'.records.map VectorRecord.id)
        = some (c.records.map VectorRecord.id ++ ids)
    ∧ c.upsert ids vectors payloads
        = c.upsert ids (vectors.take ids.length) (payloads.take ids.length) := by
  rw [upsert_of_bounds c ids vectors payloads h1 h2]
  refine ⟨rfl, ?_, ?_⟩
  · simp [applyBatch_records, List.map_append,
      mkRecords_map_id ids vectors payloads h1 h2]
  · rw [upsert_of_bounds c ids (vectors.take ids.length) (payloads.take ids.length)
      (by simpa using h1) (by simpa using h2), ← applyBatch_truncates]

/-- C10 witness: a batch of one id with surplus vector and payload entries. -/
theorem upsert_ignores_surplus_witness :
    ((Collection.new cfgL2 2).upsert [5] [[1, 2], [9, 9]] [Json.null, Json.num 3]).isSome = true
    ∧ ((Collection.new cfgL2 2).upsert [5] [[1, 2], [9, 9]] [Json.null, Json.num 3]).map
        (fun c' => c'.records.map VectorRecord.id)
      = some ((Collection.new cfgL2 2).records.map VectorRecord.id ++ [5])
    ∧ (Collection.new cfgL2 2).upsert [5] [[1, 2], [9, 9]] [Json.null, Json.num 3]
      = (Collection.new cfgL2 2).upsert [5]
          (([[1, 2], [9, 9]] : List (List ℚ)).take 1) ([Json.null, Json.num 3].take 1) :=
  upsert_ignores_surplus (Collection.new cfgL2 2) [5] [[1, 2], [9, 9]]
    [Json.null, Json.num 3] (by decide) (by decide)

/-! Claim C9. -/

/-- C9: at most one of the two index fields is populated — exactly the one
matching the distance string fixed at creation, and neither when that string
is not "l2" or "cosine"; the invariant holds for every freshly created
collection and is preserved by every successful upsert (search does not
mutate the collection at all, as `Collection.search` is a pure function of
it). -/
theorem collection_index_invariant (cfg : CollectionConfig) (dim : Nat)
    (c c' : Collection) (ids : List Nat) (vectors : List (List ℚ))
    (payloads : List Json)
    (hwf : c.wfIndex) (hup : c.upsert ids vectors payloads = some c') :
    (Collection.new cfg dim).wfIndex ∧ c'.wfIndex := by
  refine ⟨wfIndex_new cfg dim, ?_⟩
  rw [upsert_eq_applyBatch c ids vectors payloads c' hup]
  exact wfIndex_applyBatch ids vectors payloads c hwf

/-- C9 witness: the invariant at a fresh l2 collection and across a concrete
upsert. -/
theorem collection_index_invariant_witness :
    (Collection.new cfgL2 2).wfIndex ∧ collA2.wfIndex :=
  collection_index_invariant cfgL2 2 collA collA2 [7] [[1, 1]] [Json.null]
    (by decide) (by decide)

/-! Claim C7. -/

/-- C7 (amended): for every collection whose distance is "l2" or "cosine"
into which n distinct valid vectors with n distinct ids have been inserted,
a search with top_k = n returns exactly n result pairs with pairwise
distinct ids, sorted by non-decreasing distance. The restriction to the two
recognized distance strings is forced: the code accepts any distance string
at creation, and a collection created with any other string has no index, so
its searches return the empty list no matter what was inserted. -/
theorem round_trip_search (cfg : CollectionConfig) (dim n : Nat) (ids : List Nat)
    (vectors : List (List ℚ)) (payloads : List Json) (c' : Collection)
    (query : List ℚ)
    (hdist : cfg.distance = "l2" ∨ cfg.distance = "cosine")
    (hn : ids.length = n) (hnodup : ids.Nodup) (hvnodup : vectors.Nodup)
    (hvalid : ∀ v ∈ vectors, v.length = dim)
    (hv : vectors.length = n) (hp : payloads.length = n)
    (hup : (Collection.new cfg dim).upsert ids vectors payloads = some c') :
    (c'.search query n).length = n
    ∧ ((c'.search query n).map Prod.fst).Nodup
    ∧ (c'.search query n).Pairwise (fun a b => a.2 ≤ b.2) := by
  have h1 : ids.length ≤ vectors.length := by omega
  have h2 : ids.length ≤ payloads.length := by omega
  have hc' := upsert_eq_applyBatch _ ids vectors payloads c' hup
  have hnodes_len : (mkNodes ids vectors payloads).length = n := by
    rw [mkNodes_length ids vectors payloads h1 h2, hn]
  have hnodes_snd : (mkNodes ids vectors payloads).map Prod.snd = ids :=
    mkNodes_map_snd ids vectors payloads h1 h2
  have hnodes_nodup : ((mkNodes ids vectors payloads).map Prod.snd).Nodup := by
    rw [hnodes_snd]; exact hnodup
  rcases hdist with hd | hd
  · have hL : (Collection.new cfg dim).hnsw_l2
        = some (Hnsw.new cfg.hnsw.max_nb_connection 16 dim cfg.hnsw.max_elements) := by
      simp [Collection.new, hd]
    have hcl2 : c'.hnsw_l2
        = some ⟨cfg.hnsw.max_nb_connection, 16, dim, cfg.hnsw.max_elements,
            mkNodes ids vectors payloads⟩ := by
      rw [hc', applyBatch_hnsw_l2, hL]
      simp [Hnsw.new]
    rw [search_dispatch_l2 c' _ hcl2 query n]
    exact hnswSearch_props _ distL2 query _ n hnodes_len hnodes_nodup
  · have hLnone : (Collection.new cfg dim).hnsw_l2 = none := by
      simp [Collection.new, hd]
    have hCs : (Collection.new cfg dim).hnsw_cosine
        = some (Hnsw.new cfg.hnsw.max_nb_connection 16 dim cfg.hnsw.max_elements) := by
      simp [Collection.new, hd]
    have hcl2 : c'.hnsw_l2 = none := by
      rw [hc', applyBatch_hnsw_l2, hLnone]; rfl
    have hccos : c'.hnsw_cosine
        = some ⟨cfg.hnsw.max_nb_connection, 16, dim, cfg.hnsw.max_elements,
            mkNodes ids vectors payloads⟩ := by
      rw [hc', applyBatch_hnsw_cosine, hCs]
      simp [Hnsw.new]
    rw [search_dispatch_cosine c' _ hcl2 hccos query n]
    exact hnswSearch_props _ distCosine query _ n hnodes_len hnodes_nodup

/-- C7 counterexample: a collection created with the unrecognized distance
"dot" accepts the insertion of one valid distinct vector (the record count
becomes 1), yet a search with top_k = 1 returns the empty list instead of
exactly 1 result pair. -/
theorem round_trip_search_cex :
    ((Collection.new cfgDot 1).upsert [1] [[0]] [Json.null]).map
        (fun c => c.search [0] 1) = some []
    ∧ ((Collection.new cfgDot 1).upsert [1] [[0]] [Json.null]).map
        (fun c => c.records.length) = some 1 := by decide

/-- C7 witness: the amended claim on an l2 collection of dimension 1 holding
two distinct vectors. -/
theorem round_trip_search_witness :
    ((applyBatch (Collection.new cfgL2 1) [1, 2] [[0], [3]]
        [Json.null, Json.null]).search [0] 2).length = 2
    ∧ (((applyBatch (Collection.new cfgL2 1) [1, 2] [[0], [3]]
        [Json.null, Json.null]).search [0] 2).map Prod.fst).Nodup
    ∧ ((applyBatch (Collection.new cfgL2 1) [1, 2] [[0], [3]]
        [Json.null, Json.null]).search [0] 2).Pairwise (fun a b => a.2 ≤ b.2) :=
  round_trip_search cfgL2 1 2 [1, 2] [[0], [3]] [Json.null, Json.null]
    (applyBatch (Collection.new cfgL2 1) [1, 2] [[0], [3]] [Json.null, Json.null])
    [0] (Or.inl rfl) rfl (by decide) (by decide) (by decide) rfl rfl (by decide)
